import Mathlib

/-!
Verification of the yml2tex markup-generation engine (src/yml2tex/__init__.py)
against its specification.  The Python module is shallowly embedded: pure
string-building functions become Lean functions on `String`; the external
collaborators (pygments highlighting, file system) are an explicit `Env` of
functions; fallible operations return `Except Err`.
-/

/-- The reserved LaTeX characters escaped by `_escape_output`
(the keys of its `dic`): & $ % # _ { }. -/
def reservedChars : List Char := ['&', '$', '%', '#', '_', Char.ofNat 123, Char.ofNat 125]

/-- One character of `_escape_output`'s output: each `text.replace(i, j)` call
replaces every occurrence of the reserved character `i` by backslash-`i`; the
seven replacements touch disjoint characters and never the inserted
backslashes, so their combined effect is this per-character map. -/
def escChar (c : Char) : List Char :=
  if c ∈ reservedChars then [Char.ofNat 92, c] else [c]

/-- The combined effect of the seven `replace` calls on a character list. -/
def escL : List Char → List Char
  | [] => []
  | c :: cs => escChar c ++ escL cs

/-- Embedding of `_escape_output` (src/yml2tex/__init__.py, lines 48-60). -/
def _escape_output (text : String) : String :=
  String.mk (escL text.data)

/-- "No unescaped occurrence of a reserved character": a reserved character
never appears at position 0, and a reserved character at position i+1 has a
backslash at position i. -/
def noUnescaped (l : List Char) : Prop :=
  (∀ c, l[0]? = some c → c ∉ reservedChars) ∧
  (∀ i c, l[i + 1]? = some c → c ∈ reservedChars → l[i]? = some (Char.ofNat 92))

lemma backslash_not_reserved : Char.ofNat 92 ∉ reservedChars := by decide

lemma noUnescaped_escL (cs : List Char) : noUnescaped (escL cs) := by
  induction cs with
  | nil => exact ⟨fun c h => by simp [escL] at h, fun i c h => by simp [escL] at h⟩
  | cons c cs ih =>
    by_cases hc : c ∈ reservedChars
    · have heq : escL (c :: cs) = Char.ofNat 92 :: c :: escL cs := by
        simp [escL, escChar, hc]
      rw [heq]
      constructor
      · intro d hd
        simp at hd
        rw [← hd]
        exact backslash_not_reserved
      · intro i d hd hres
        match i with
        | 0 => rfl
        | 1 =>
          simp at hd
          exact absurd hres (ih.1 d (by simpa using hd))
        | Nat.succ (Nat.succ j) =>
          simpa using ih.2 j d (by simpa using hd) hres
    · have heq : escL (c :: cs) = c :: escL cs := by
        simp [escL, escChar, hc]
      rw [heq]
      constructor
      · intro d hd
        simp at hd
        rw [← hd]; exact hc
      · intro i d hd hres
        match i with
        | 0 =>
          simp at hd
          exact absurd hres (ih.1 d hd)
        | Nat.succ j =>
          simpa using ih.2 j d (by simpa using hd) hres

lemma escL_id (cs : List Char) (h : ∀ c ∈ cs, c ∉ reservedChars) : escL cs = cs := by
  induction cs with
  | nil => rfl
  | cons c cs ih =>
    have hc : c ∉ reservedChars := h c (by simp)
    simp [escL, escChar, hc]
    exact ih (fun d hd => h d (by simp [hd]))

/-- Number of reserved characters in a list. -/
def cntRes (cs : List Char) : Nat := cs.countP (fun c => decide (c ∈ reservedChars))

lemma length_escL (cs : List Char) : (escL cs).length = cs.length + cntRes cs := by
  induction cs with
  | nil => rfl
  | cons c cs ih =>
    by_cases hc : c ∈ reservedChars
    · simp [escL, escChar, hc, cntRes, List.countP_cons, ih]
      simp [cntRes] at ih ⊢
      omega
    · simp [escL, escChar, hc, cntRes, List.countP_cons, ih]
      simp [cntRes] at ih ⊢
      omega

lemma cntRes_escChar (c : Char) : cntRes (escChar c) = cntRes [c] := by
  by_cases hc : c ∈ reservedChars
  · simp [escChar, hc, cntRes, List.countP_cons]
    have : Char.ofNat 92 ∉ reservedChars := backslash_not_reserved
    simp [this]
  · simp [escChar, hc]

lemma cntRes_append (a b : List Char) : cntRes (a ++ b) = cntRes a + cntRes b := by
  simp [cntRes, List.countP_append]

lemma cntRes_escL (cs : List Char) : cntRes (escL cs) = cntRes cs := by
  induction cs with
  | nil => rfl
  | cons c cs ih =>
    have : escL (c :: cs) = escChar c ++ escL cs := rfl
    rw [this, cntRes_append, cntRes_escChar, ih]
    show cntRes [c] + cntRes cs = cntRes (c :: cs)
    simp [cntRes, List.countP_cons]
    omega

/-!
## Items and the List Renderer (`itemize`)

The loader turns a YAML sequence item into either a string (leaf) or, for a
nested mapping, a list of (key, value) pairs whose values are again strings or
item lists.
-/

mutual
inductive Item : Type where
  | leaf : String → Item
  | nested : List NPair → Item
inductive NPair : Type where
  | mk : String → NVal → NPair
inductive NVal : Type where
  | str : String → NVal
  | list : List Item → NVal
end

/-- String concatenation of a list, cons-recursive. -/
def strJoin : List String → String
  | [] => ""
  | s :: ss => s ++ strJoin ss

def itemBegin : String := "\n\t\\begin\x7bitemize\x7d[<+-| alert@+>]"

def itemEnd : String := "\n\t\\end\x7bitemize\x7d"

/-- `itemize` applied to a plain string: Python iterates the string character
by character, producing one item line per character. -/
def charItemize (s : String) : String :=
  itemBegin
  ++ strJoin (s.data.map (fun c => "\n\t\\item " ++ _escape_output (String.mk [c])))
  ++ itemEnd

mutual
/-- The body of `itemize`'s `for item in items` loop
(src/yml2tex/__init__.py, lines 62-79). -/
def itemizeLoop : List Item → String
  | [] => ""
  | Item.leaf t :: rest => ("\n\t\\item " ++ _escape_output t) ++ itemizeLoop rest
  | Item.nested ps :: rest => nestedPart ps ++ itemizeLoop rest
/-- The `for i in item` inner loop: it runs `len(item)` times but always reads
`item[0][0]` and `item[0][1]`, so it emits the first pair's entry once per
element of the wrapper. -/
def nestedPart : List NPair → String
  | [] => ""
  | NPair.mk k v :: rest =>
      strJoin (List.replicate (rest.length + 1)
        ("\n\t\\item " ++ _escape_output k ++ itemizeNVal v))
/-- Recursive `itemize(item[0][1])` on the pair's value. -/
def itemizeNVal : NVal → String
  | NVal.str s => charItemize s
  | NVal.list l => itemBegin ++ itemizeLoop l ++ itemEnd
end

/-- Embedding of `itemize` (src/yml2tex/__init__.py, lines 62-79). -/
def itemize (items : List Item) : String :=
  itemBegin ++ itemizeLoop items ++ itemEnd

lemma itemizeNVal_list (l : List Item) : itemizeNVal (NVal.list l) = itemize l := rfl

lemma str_append_assoc (a b c : String) : a ++ b ++ c = a ++ (b ++ c) := by
  apply String.ext
  simp

lemma itemizeLoop_append (a b : List Item) :
    itemizeLoop (a ++ b) = itemizeLoop a ++ itemizeLoop b := by
  induction a with
  | nil => simp [itemizeLoop]
  | cons x rest ih =>
    match x with
    | Item.leaf t => simp [itemizeLoop, ih, str_append_assoc]
    | Item.nested ps => simp [itemizeLoop, ih, str_append_assoc]

lemma itemizeLoop_map_leaf (ts : List String) :
    itemizeLoop (ts.map Item.leaf) =
      strJoin (ts.map (fun t => "\n\t\\item " ++ _escape_output t)) := by
  induction ts with
  | nil => rfl
  | cons t rest ih => simp [itemizeLoop, strJoin, ih]

/-!
## External collaborators and errors
-/

/-- A pygments lexer, identified abstractly. -/
abbrev Lexer := String

/-- Python runtime errors that the module can raise. -/
inductive Err : Type where
  | ioError : String → Err
  | nameError : Err
  | indexError : Err
  | typeError : Err
deriving DecidableEq, Repr

/-- The external collaborators: pygments (lexer registry, plain-name lookup,
highlighting, style definitions) and the file system. -/
structure Env : Type where
  lexerFor : String → Option Lexer
  lexerByName : String → Lexer
  highlight : String → Lexer → String
  styleDefs : String → String
  readFile : String → Option String

/-- Names bound at module level of src/yml2tex/__init__.py: the five imports
plus the module's own definitions.  `get_lexer_by_name` is not among them. -/
def moduleScope : List String :=
  ["highlight", "get_lexer_for_filename", "LatexFormatter", "yaml", "PairLoader",
   "section", "subsection", "frame", "_escape_output", "itemize", "code", "image",
   "header", "footer", "main", "__version__", "__author__", "__url__"]

/-- One split step of Python's `s.split(' ')`: split on every single space,
keeping empty fields. -/
def splitSp : List Char → List (List Char)
  | [] => [[]]
  | c :: cs =>
    match splitSp cs with
    | [] => [[]]
    | w :: ws => if c = ' ' then [] :: w :: ws else (c :: w) :: ws

/-- Python's `s.split(' ')`. -/
def pySplitSpace (s : String) : List String :=
  (splitSp s.data).map String.mk

/-- Embedding of `code` (src/yml2tex/__init__.py, lines 81-100).
`title.split(' ')[1]` is the element after the first single-space split;
lexer lookup happens before the file is opened; the `except:` handler
references `get_lexer_by_name`, which resolves only if that name is bound in
the module scope — otherwise Python raises `NameError`. -/
def code (env : Env) (title : String) : Except Err String :=
  match (pySplitSpace title)[1]? with
  | none => .error .indexError
  | some filename =>
    match
      (match env.lexerFor filename with
       | some l => (.ok l : Except Err Lexer)
       | none =>
         if moduleScope.contains "get_lexer_by_name" then .ok (env.lexerByName "text")
         else .error .nameError) with
    | .error e => .error e
    | .ok lexer =>
      match env.readFile filename with
      | none => .error (.ioError filename)
      | some contents =>
        .ok ("\n\\begin\x7bframe\x7d[fragile,t]"
          ++ ("\n\t\\frametitle\x7bCode: \"" ++ filename ++ "\"\x7d")
          ++ env.highlight contents lexer
          ++ "\n\\end\x7bframe\x7d")

/-- A frame's associated value: a YAML sequence of items (normal and code
frames) or a YAML mapping of option pairs (image frames). -/
inductive FrameItems : Type where
  | items : List Item → FrameItems
  | opts : List (String × String) → FrameItems

/-- Python `dict(pairs)`: duplicate keys collapse, the last value wins.
(CPython's iteration order over the small result dict is hash-dependent;
it is modelled here as first-insertion order — no claim depends on it.) -/
def pyDict (ps : List (String × String)) : List (String × String) :=
  ps.foldl (fun acc p =>
    if acc.any (fun q => q.1 == p.1)
    then acc.map (fun q => if q.1 == p.1 then (q.1, p.2) else q)
    else acc ++ [p]) []

/-- The `",".join(["%s=%s" % (k, v) for k, v in dict(options).items()])`
serialization of an image frame's options; an empty/absent option sequence is
falsy and yields the empty string.  A non-mapping, non-empty value cannot be
turned into a dict and raises. -/
def optionsString : FrameItems → Except Err String
  | .items [] => .ok ""
  | .opts ps => .ok (String.intercalate "," ((pyDict ps).map (fun p => p.1 ++ "=" ++ p.2)))
  | .items (_ :: _) => .error .typeError

/-- Embedding of `image` (src/yml2tex/__init__.py, lines 102-113). -/
def image (title : String) (options : FrameItems) : Except Err String :=
  match optionsString options with
  | .error e => .error e
  | .ok opts =>
    match (pySplitSpace title)[1]? with
    | none => .error .indexError
    | some path =>
      .ok ("\n\\frame[shrink] \x7b"
        ++ ("\n\t\\pgfimage[" ++ opts ++ "]\x7b" ++ path ++ "\x7d")
        ++ "\n\x7d")

/-- The `else` branch of `frame`: a titled frame (title escaped) wrapping the
List Renderer's output.  A mapping value under a normal title would be
itemized as a list of pairs, whose elements have no `replace` method. -/
def frameNormal (title : String) (items : FrameItems) : Except Err String :=
  match items with
  | .items l =>
    .ok ("\n\\frame \x7b"
      ++ ("\n\t\\frametitle\x7b" ++ _escape_output title ++ "\x7d")
      ++ itemize l
      ++ "\n\x7d")
  | .opts _ => .error .typeError

/-- Python's `s.startswith(pre)`: `pre.data` is a list prefix of `s.data`. -/
def pyStartsWith (s pre : String) : Bool :=
  pre.data.isPrefixOf s.data

/-- Embedding of `frame` (src/yml2tex/__init__.py, lines 32-46): dispatch on
`title.startswith('include')` / `title.startswith('image')`. -/
def frame (env : Env) (title : String) (items : FrameItems) : Except Err String :=
  if pyStartsWith title "include" then code env title
  else if pyStartsWith title "image" then image title items
  else frameNormal title items

/-!
## Metadata, header/footer, and the Document Assembler (`main`)
-/

/-- A metadata option value as loaded from YAML: a string or a boolean. -/
inductive MetaVal : Type where
  | s : String → MetaVal
  | b : Bool → MetaVal
deriving DecidableEq, Repr

/-- Python `"%s" % v` of a metadata value. -/
def MetaVal.fmt : MetaVal → String
  | .s v => v
  | .b v => if v then "True" else "False"

/-- Python truthiness of a metadata value. -/
def MetaVal.truthy : MetaVal → Bool
  | .s v => !(v == "")
  | .b v => v

/-- `dict(pairs).get(k, d)`: last binding of `k` wins, default otherwise. -/
def mget (ps : List (String × MetaVal)) (k : String) (d : MetaVal) : MetaVal :=
  match ps.foldl (fun acc p => if p.1 == k then some p.2 else acc) none with
  | some v => v
  | none => d

/-- The outline block emitted when `metas.get('outline', True)` is truthy. -/
def outlineBlock : String :=
  "\n\n\\section*\x7bOutline\x7d"
  ++ "\n\\frame \x7b"
  ++ "\n\t\\frametitle\x7bOutline\x7d"
  ++ "\n\t\\tableofcontents"
  ++ "\n\x7d"
  ++ "\n\n\\AtBeginSection[] \x7b"
  ++ "\n\t\\frame\x7b"
  ++ "\n\t\t\\frametitle\x7bOutline\x7d"
  ++ "\n\t\t\\tableofcontents[currentsection]"
  ++ "\n\t\x7d"
  ++ "\n\x7d"

/-- The fixed text before the pygments style definitions. -/
def headerPre : String :=
  "\\documentclass[slidestop,red]\x7bbeamer\x7d"
  ++ "\n\\usepackage[utf8]\x7binputenc\x7d"
  ++ "\n\\usepackage\x7bfancyvrb,color\x7d\n\n"

/-- The fixed theme declarations between the style definitions and the title
block. -/
def headerThemes : String :=
  "\n\n\\usetheme\x7bAntibes\x7d"
  ++ "\n\\setbeamertemplate\x7bfootline\x7d[frame number]"
  ++ "\n\\usecolortheme\x7blily\x7d"
  ++ "\n\\beamertemplateshadingbackground\x7bblue!5\x7d\x7byellow!10\x7d"

/-- The fixed text between the date value and the outline block. -/
def headerBeginDoc : String :=
  "\n\n\\begin\x7bdocument\x7d" ++ "\n\n\\frame\x7b\\titlepage\x7d"

/-- Embedding of `header` (src/yml2tex/__init__.py, lines 115-152).  Metadata
values are interpolated with `%s` — they do not pass through
`_escape_output`. -/
def header (env : Env) (metas : List (String × MetaVal)) : String :=
  headerPre
  ++ env.styleDefs (mget metas "highlight_style" (.s "default")).fmt
  ++ headerThemes
  ++ ("\n\n\\title\x7b" ++ (mget metas "title" (.s "Example Presentation")).fmt ++ "\x7d")
  ++ ("\n\\author\x7b" ++ (mget metas "author" (.s "Arthur Koziel")).fmt ++ "\x7d")
  ++ ("\n\\institute\x7b" ++ (mget metas "institute" (.s "")).fmt ++ "\x7d")
  ++ ("\n\\date\x7b" ++ (mget metas "date" (.s "\\today")).fmt ++ "\x7d")
  ++ headerBeginDoc
  ++ (if (mget metas "outline" (.b true)).truthy then outlineBlock else "")

/-- Embedding of `footer` (src/yml2tex/__init__.py, lines 154-159). -/
def footer : String := "\n\\end\x7bdocument\x7d"

/-- Embedding of `section` (src/yml2tex/__init__.py, lines 20-24); `section`
is a Lean keyword, hence the name. -/
def sectionCmd (title : String) : String :=
  "\n\n\\section\x7b" ++ _escape_output title ++ "\x7d"

/-- Embedding of `subsection` (src/yml2tex/__init__.py, lines 26-30). -/
def subsection (title : String) : String :=
  "\n\\subsection\x7b" ++ _escape_output title ++ "\x7d"

abbrev SubBody := List (String × FrameItems)
abbrev SecBody := List (String × SubBody)
abbrev Sections := List (String × SecBody)

/-- A top-level entry's value: the reserved metadata mapping of scalar
options, or a section body.  (A `metas`-keyed first entry whose value is not
a mapping of scalar options is outside the data model of §3 and is modelled
as a dynamic error.) -/
inductive TopVal : Type where
  | metas : List (String × MetaVal) → TopVal
  | sections : SecBody → TopVal

/-- The `for frames, items in doc` inner loop of `main`, accumulating into
`out`. -/
def renderFrames (env : Env) : SubBody → String → Except Err String
  | [], out => .ok out
  | fr :: rest, out =>
    match frame env fr.1 fr.2 with
    | .error e => .error e
    | .ok s => renderFrames env rest (out ++ s)

/-- The `for subsections, doc in doc` loop of `main`. -/
def renderSubs (env : Env) : SecBody → String → Except Err String
  | [], out => .ok out
  | sub :: rest, out =>
    match renderFrames env sub.2 (out ++ subsection sub.1) with
    | .error e => .error e
    | .ok o => renderSubs env rest o

/-- The `for sections, doc in doc` loop of `main`.  Unpacking a metadata
mapping's scalar values as (subsection, body) pairs fails; modelled as a
dynamic error. -/
def renderSecs (env : Env) : List (String × TopVal) → String → Except Err String
  | [], out => .ok out
  | (t, v) :: rest, out =>
    match v with
    | .metas _ => .error .typeError
    | .sections b =>
      match renderSubs env b (out ++ sectionCmd t) with
      | .error e => .error e
      | .ok o => renderSecs env rest o

/-- Embedding of `main` after loading (src/yml2tex/__init__.py, lines
161-181; the name `main` is reserved by Lean): `doc[0][0]` on an empty document raises; a first entry keyed
`"metas"` is turned into the metadata dict and removed; the rest is traversed
and the result UTF-8 encoded. -/
def mainFn (env : Env) (doc : List (String × TopVal)) : Except Err ByteArray :=
  match doc with
  | [] => .error .indexError
  | (k, v) :: rest =>
    if k = "metas" then
      match v with
      | .metas ps =>
        match renderSecs env rest (header env ps) with
        | .error e => .error e
        | .ok out => .ok ((out ++ footer).toUTF8)
      | .sections _ => .error .typeError
    else
      match renderSecs env ((k, v) :: rest) (header env []) with
      | .error e => .error e
      | .ok out => .ok ((out ++ footer).toUTF8)

/-!
## Spec-shaped assembly (§4.4) and its agreement with `mainFn`
-/

/-- A typed all-sections document prefixed into `mainFn`'s input shape. -/
def docOfSections (secs : Sections) : List (String × TopVal) :=
  secs.map (fun s => (s.1, TopVal.sections s.2))

/-- Error-propagating map over a list, cons-recursive. -/
def mapE {α β : Type} (f : α → Except Err β) : List α → Except Err (List β)
  | [] => .ok []
  | a :: l =>
    match f a with
    | .error e => .error e
    | .ok b =>
      match mapE f l with
      | .error e => .error e
      | .ok bs => .ok (b :: bs)

lemma str_append_empty (s : String) : s ++ "" = s := by
  apply String.ext
  simp

/-- Spec wording (§4.4): for each (subsection-title, subsection-body) pair, a
subsection heading, then for each (frame-title, items) pair the Frame
Dispatcher's output. -/
def subSpec (env : Env) (sub : String × SubBody) : Except Err String :=
  match mapE (fun fr => frame env fr.1 fr.2) sub.2 with
  | .error e => .error e
  | .ok fs => .ok (subsection sub.1 ++ strJoin fs)

/-- Spec wording (§4.4): for each (section-title, section-body) pair, a
section heading, then the subsections. -/
def secSpec (env : Env) (sec : String × SecBody) : Except Err String :=
  match mapE (subSpec env) sec.2 with
  | .error e => .error e
  | .ok ss => .ok (sectionCmd sec.1 ++ strJoin ss)

/-- Spec wording (§4.4): header parameterized by the Metadata Map, the
sections in order, the footer, the whole encoded as UTF-8 bytes. -/
def assemble_spec (env : Env) (ps : List (String × MetaVal)) (secs : Sections) :
    Except Err ByteArray :=
  match mapE (secSpec env) secs with
  | .error e => .error e
  | .ok body => .ok ((header env ps ++ strJoin body ++ footer).toUTF8)

/-- Propagate an error, or append the joined pieces to an accumulator. -/
def exceptFold (r : Except Err (List String)) (acc : String) : Except Err String :=
  match r with
  | .error e => .error e
  | .ok fs => .ok (acc ++ strJoin fs)

lemma renderFrames_eq (env : Env) (frs : SubBody) (acc : String) :
    renderFrames env frs acc =
      exceptFold (mapE (fun fr => frame env fr.1 fr.2) frs) acc := by
  induction frs generalizing acc with
  | nil => simp [renderFrames, mapE, exceptFold, strJoin, str_append_empty]
  | cons fr rest ih =>
    simp only [renderFrames, mapE]
    cases frame env fr.1 fr.2 with
    | error e => simp [exceptFold]
    | ok s =>
      dsimp only
      rw [ih]
      cases mapE (fun fr => frame env fr.1 fr.2) rest with
      | error e => simp [exceptFold]
      | ok fs => simp [exceptFold, strJoin, str_append_assoc]

lemma renderSubs_eq (env : Env) (subs : SecBody) (acc : String) :
    renderSubs env subs acc = exceptFold (mapE (subSpec env) subs) acc := by
  induction subs generalizing acc with
  | nil => simp [renderSubs, mapE, exceptFold, strJoin, str_append_empty]
  | cons sub rest ih =>
    simp only [renderSubs, mapE, subSpec]
    rw [renderFrames_eq]
    cases mapE (fun fr => frame env fr.1 fr.2) sub.2 with
    | error e => simp [exceptFold]
    | ok fs =>
      dsimp only
      rw [show exceptFold (Except.ok fs) (acc ++ subsection sub.1) =
            .ok (acc ++ subsection sub.1 ++ strJoin fs) from rfl]
      dsimp only
      rw [ih]
      cases mapE (subSpec env) rest with
      | error e => simp [exceptFold]
      | ok ss => simp [exceptFold, strJoin, str_append_assoc]

lemma renderSecs_eq (env : Env) (secs : Sections) (acc : String) :
    renderSecs env (docOfSections secs) acc =
      exceptFold (mapE (secSpec env) secs) acc := by
  induction secs generalizing acc with
  | nil => simp [renderSecs, docOfSections, mapE, exceptFold, strJoin, str_append_empty]
  | cons sec rest ih =>
    simp only [renderSecs, docOfSections, List.map, mapE, secSpec]
    rw [renderSubs_eq]
    cases mapE (subSpec env) sec.2 with
    | error e => simp [exceptFold]
    | ok ss =>
      dsimp only
      rw [show exceptFold (Except.ok ss) (acc ++ sectionCmd sec.1) =
            .ok (acc ++ sectionCmd sec.1 ++ strJoin ss) from rfl]
      dsimp only
      rw [show renderSecs env (List.map (fun s => (s.1, TopVal.sections s.2)) rest) =
            renderSecs env (docOfSections rest) from rfl]
      rw [ih]
      cases mapE (secSpec env) rest with
      | error e => simp [exceptFold]
      | ok body => simp [exceptFold, strJoin, str_append_assoc]

/-!
## Concrete environments for evaluating the embedding
-/

/-- A concrete environment: lexers are registered for `a.py` and `missing.py`
only; `a.py` and `notes.txt` are the only readable files. -/
def envW : Env where
  lexerFor := fun f => if f == "a.py" || f == "missing.py" then some "python" else none
  lexerByName := fun n => n
  highlight := fun contents lexer => "[" ++ lexer ++ ":" ++ contents ++ "]"
  styleDefs := fun sty => "STYLE(" ++ sty ++ ")"
  readFile := fun f =>
    if f == "a.py" then some "print 1"
    else if f == "notes.txt" then some "hello" else none

/-- A trivial environment whose collaborators all return empty output. -/
def envId : Env where
  lexerFor := fun _ => none
  lexerByName := fun n => n
  highlight := fun _ _ => ""
  styleDefs := fun _ => ""
  readFile := fun _ => none


instance {ε α : Type} [DecidableEq ε] [DecidableEq α] : DecidableEq (Except ε α) :=
  fun a b =>
    match a, b with
    | .ok x, .ok y =>
      if h : x = y then .isTrue (congrArg Except.ok h)
      else .isFalse (fun c => h (Except.ok.inj c))
    | .error x, .error y =>
      if h : x = y then .isTrue (congrArg Except.error h)
      else .isFalse (fun c => h (Except.error.inj c))
    | .ok _, .error _ => .isFalse (fun c => Except.noConfusion c)
    | .error _, .ok _ => .isFalse (fun c => Except.noConfusion c)

/-!
## The claims
-/

/-- C2: the claim says a failed lexer lookup falls back to a plain-text lexer
and never aborts rendering.  The code's `except:` handler calls
`get_lexer_by_name`, a name never imported into the module, so the fallback
path raises `NameError` and aborts rendering: for the frame
`include notes.txt` (readable file, no registered lexer) the dispatcher
returns a `NameError` instead of rendering. -/
theorem c2_lexer_fallback_raises_nameerror :
    moduleScope.contains "get_lexer_by_name" = false ∧
    envW.lexerFor "notes.txt" = none ∧
    envW.readFile "notes.txt" = some "hello" ∧
    code envW "include notes.txt" = Except.error Err.nameError ∧
    frame envW "include notes.txt" (FrameItems.items []) = Except.error Err.nameError := by
  refine ⟨by decide, rfl, rfl, rfl, rfl⟩

/-- C3 counterexample: the dispatcher tests `title.startswith('include')`,
not the first whitespace-delimited token.  The title `includedemo x` has
first token `includedemo`, yet the dispatcher selects the code-frame
rendering (its output equals `code`'s and differs from the normal-frame
rendering). -/
theorem c3_counterexample :
    (pySplitSpace "includedemo x")[0]? = some "includedemo" ∧
    "includedemo" ≠ "include" ∧
    frame envW "includedemo x" (FrameItems.items []) = code envW "includedemo x" ∧
    frame envW "includedemo x" (FrameItems.items []) ≠
      frameNormal "includedemo x" (FrameItems.items []) := by
  refine ⟨rfl, by decide, rfl, by decide⟩

/-- C3 (amended): the Frame Dispatcher selects the code-frame rendering iff
the title starts with the prefix `include` (Python `str.startswith`),
otherwise the image rendering iff it starts with `image`, otherwise the
normal rendering; the path used by the code/image renderers is element 1 of
the title split on single spaces. -/
theorem c3_amended_dispatch (env : Env) (title : String) (items : FrameItems) :
    frame env title items =
      (if pyStartsWith title "include" then code env title
       else if pyStartsWith title "image" then image title items
       else frameNormal title items) := rfl

/-- C4: the List Renderer emits exactly one bulleted entry per leaf item, in
input order; a single-element wrapper around a (label, nested-list) pair
yields one entry with the escaped label immediately followed by the full
recursive rendering of the nested list; concretely, `Fruits` over
`[Apple, Banana]` renders as a `Fruits` entry followed by a nested list with
exactly `Apple` then `Banana`. -/
theorem c4_list_renderer :
    (∀ ts : List String,
      itemize (ts.map Item.leaf) =
        itemBegin ++ strJoin (ts.map (fun t => "\n\t\\item " ++ _escape_output t)) ++ itemEnd) ∧
    (∀ (pre post : List Item) (label : String) (sub : List Item),
      itemize (pre ++ Item.nested [NPair.mk label (NVal.list sub)] :: post) =
        itemBegin ++ itemizeLoop pre
          ++ ("\n\t\\item " ++ _escape_output label ++ itemize sub)
          ++ itemizeLoop post ++ itemEnd) ∧
    itemize [Item.nested [NPair.mk "Fruits" (NVal.list [Item.leaf "Apple", Item.leaf "Banana"])]] =
      itemBegin ++ ("\n\t\\item Fruits"
        ++ (itemBegin ++ "\n\t\\item Apple" ++ "\n\t\\item Banana" ++ itemEnd)) ++ itemEnd := by
  refine ⟨?_, ?_, ?_⟩
  · intro ts
    rw [itemize, itemizeLoop_map_leaf]
  · intro pre post label sub
    simp only [itemize, itemizeLoop_append, itemizeLoop, nestedPart, itemizeNVal,
      List.length_nil, List.replicate, strJoin]
    apply String.ext
    simp
  · decide

/-- C5: the Escaper is total, its output has no unescaped occurrence of any
of the reserved characters (each is immediately preceded by a backslash),
and inputs containing none of them — including the empty string — are
returned unchanged. -/
theorem c5_escaper_output_escaped :
    (∀ s : String, noUnescaped (_escape_output s).data) ∧
    (∀ s : String, (∀ c ∈ s.data, c ∉ reservedChars) → _escape_output s = s) ∧
    _escape_output "" = "" := by
  refine ⟨?_, ?_, rfl⟩
  · intro s
    exact noUnescaped_escL s.data
  · intro s h
    show String.mk (escL s.data) = s
    rw [escL_id s.data h]

theorem c5_escaper_output_escaped_witness :
    noUnescaped (_escape_output "a&b").data ∧ _escape_output "abc" = "abc" :=
  ⟨c5_escaper_output_escaped.1 "a&b", c5_escaper_output_escaped.2.1 "abc" (by decide)⟩

/-- C6 counterexample: the claim says an already-escaped sequence is left
unchanged and re-applying the Escaper changes nothing; in fact the Escaper
inspects each character in isolation, so the escaped sequence backslash-& is
changed to backslash-backslash-&, and applying the Escaper to its own output
differs from applying it once. -/
theorem c6_counterexample :
    _escape_output "\\&" ≠ "\\&" ∧
    _escape_output (_escape_output "&") ≠ _escape_output "&" := by
  refine ⟨by decide, by decide⟩

/-- C6 (amended): the Escaper re-escapes already-escaped sequences — it
escapes every reserved character regardless of a preceding backslash — so
applying it to its own output equals applying it once exactly when the input
contains no reserved character at all. -/
theorem c6_amended_reescape (s : String) :
    _escape_output (_escape_output s) = _escape_output s ↔
      ∀ c ∈ s.data, c ∉ reservedChars := by
  constructor
  · intro h
    have hd : escL (escL s.data) = escL s.data := by
      have hdata := congrArg String.data h
      simpa [_escape_output] using hdata
    have hlen := congrArg List.length hd
    rw [length_escL, length_escL, cntRes_escL] at hlen
    have hcnt : cntRes s.data = 0 := by omega
    intro c hc hres
    have hpos : 0 < cntRes s.data := by
      rw [cntRes]
      exact List.countP_pos_iff.mpr ⟨c, hc, by simpa using hres⟩
    omega
  · intro h
    have h1 : _escape_output s = s := by
      show String.mk (escL s.data) = s
      rw [escL_id s.data h]
    rw [h1]
    exact h1

theorem c6_amended_reescape_witness :
    _escape_output (_escape_output "abc") = _escape_output "abc" :=
  (c6_amended_reescape "abc").mpr (by decide)

/-- C1: for a Document whose first entry is keyed exactly `metas`, the
assembler extracts that entry's value as the Metadata Map, excludes it from
traversal, and the output is exactly header(metas), then per section a
section heading, per subsection a subsection heading, per frame the Frame
Dispatcher's output, then the footer, UTF-8 encoded (`assemble_spec` is the
spec-worded assembly). -/
theorem c1_assembly (env : Env) (ps : List (String × MetaVal)) (secs : Sections) :
    mainFn env (("metas", TopVal.metas ps) :: docOfSections secs) =
      assemble_spec env ps secs := by
  show (match renderSecs env (docOfSections secs) (header env ps) with
        | Except.error e => Except.error e
        | Except.ok out => Except.ok ((out ++ footer).toUTF8)) = assemble_spec env ps secs
  rw [renderSecs_eq]
  dsimp only [assemble_spec]
  cases mapE (secSpec env) secs with
  | error e => rfl
  | ok body => rfl

/-- A code-inclusion frame whose split-out path names an unreadable file. -/
def frameMissing (env : Env) (t : String) : Bool :=
  pyStartsWith t "include" &&
    (match (pySplitSpace t)[1]? with
     | some f => (env.readFile f).isNone
     | none => false)

/-- A top-level entry containing some code-inclusion frame with an
unreadable file. -/
def entryMissing (env : Env) (e : String × TopVal) : Bool :=
  match e.2 with
  | TopVal.metas _ => false
  | TopVal.sections secs =>
      secs.any (fun sub => sub.2.any (fun fr => frameMissing env fr.1))

def docHasMissingInclude (env : Env) (doc : List (String × TopVal)) : Bool :=
  doc.any (entryMissing env)

lemma contains_lexer_by_name_false : moduleScope.contains "get_lexer_by_name" = false := by
  decide

lemma code_err_of_missing (env : Env) (t f : String)
    (hsplit : (pySplitSpace t)[1]? = some f) (hread : env.readFile f = none) :
    ∀ s, code env t ≠ Except.ok s := by
  intro s h
  unfold code at h
  rw [hsplit] at h
  dsimp only at h
  cases hl : env.lexerFor f with
  | some l =>
    rw [hl] at h
    dsimp only at h
    rw [hread] at h
    simp at h
  | none =>
    rw [hl] at h
    rw [contains_lexer_by_name_false] at h
    simp at h

lemma frame_err_of_missing (env : Env) (t : String) (items : FrameItems)
    (hm : frameMissing env t = true) :
    ∀ s, frame env t items ≠ Except.ok s := by
  intro s h
  rw [frameMissing, Bool.and_eq_true] at hm
  obtain ⟨h1, h2⟩ := hm
  simp only [frame, h1, if_true] at h
  cases hs : (pySplitSpace t)[1]? with
  | none => rw [hs] at h2; cases h2
  | some f =>
    rw [hs] at h2
    dsimp only at h2
    exact code_err_of_missing env t f hs (Option.isNone_iff_eq_none.mp h2) s h

lemma renderFrames_ok_no_missing (env : Env) (frs : SubBody) (acc out : String)
    (h : renderFrames env frs acc = Except.ok out) :
    frs.any (fun fr => frameMissing env fr.1) = false := by
  induction frs generalizing acc with
  | nil => rfl
  | cons fr rest ih =>
    simp only [renderFrames] at h
    cases hf : frame env fr.1 fr.2 with
    | error e => rw [hf] at h; simp at h
    | ok s0 =>
      rw [hf] at h
      dsimp only at h
      rw [List.any_cons, Bool.or_eq_false_iff]
      constructor
      · cases hb : frameMissing env fr.1 with
        | false => rfl
        | true => exact absurd hf (frame_err_of_missing env fr.1 fr.2 hb s0)
      · exact ih _ h

lemma renderSubs_ok_no_missing (env : Env) (subs : SecBody) (acc out : String)
    (h : renderSubs env subs acc = Except.ok out) :
    subs.any (fun sub => sub.2.any (fun fr => frameMissing env fr.1)) = false := by
  induction subs generalizing acc with
  | nil => rfl
  | cons sub rest ih =>
    simp only [renderSubs] at h
    cases hf : renderFrames env sub.2 (acc ++ subsection sub.1) with
    | error e => rw [hf] at h; simp at h
    | ok o =>
      rw [hf] at h
      dsimp only at h
      rw [List.any_cons, Bool.or_eq_false_iff]
      exact ⟨renderFrames_ok_no_missing env sub.2 _ o hf, ih _ h⟩

lemma renderSecs_ok_no_missing (env : Env) (entries : List (String × TopVal))
    (acc out : String) (h : renderSecs env entries acc = Except.ok out) :
    entries.any (entryMissing env) = false := by
  induction entries generalizing acc with
  | nil => rfl
  | cons e rest ih =>
    obtain ⟨t, v⟩ := e
    simp only [renderSecs] at h
    cases v with
    | metas ps =>
      dsimp only at h
      simp at h
    | sections b =>
      dsimp only at h
      cases hsub : renderSubs env b (acc ++ sectionCmd t) with
      | error er => rw [hsub] at h; simp at h
      | ok o =>
        rw [hsub] at h
        dsimp only at h
        rw [List.any_cons, Bool.or_eq_false_iff]
        refine ⟨?_, ih _ h⟩
        show entryMissing env (t, TopVal.sections b) = false
        exact renderSubs_ok_no_missing env b _ o hsub

def docW7 : List (String × TopVal) :=
  [("S", TopVal.sections [("Sub", [("include missing.py", FrameItems.items [])])])]

/-- C7: if some code-inclusion frame in the document names an unreadable
file, the assembler produces an error and no output at all — never a partial
document; concretely, the `IOError` for `missing.py` propagates unmodified
out of the whole assembly. -/
theorem c7_unreadable_file_fatal :
    (∀ (env : Env) (doc : List (String × TopVal)),
      docHasMissingInclude env doc = true → ∃ e, mainFn env doc = Except.error e) ∧
    code envW "include missing.py" = Except.error (Err.ioError "missing.py") ∧
    mainFn envW docW7 = Except.error (Err.ioError "missing.py") := by
  refine ⟨?_, rfl, rfl⟩
  intro env doc h
  cases hm : mainFn env doc with
  | error e => exact ⟨e, rfl⟩
  | ok out =>
    exfalso
    cases doc with
    | nil => exact Except.noConfusion hm
    | cons kv rest =>
      obtain ⟨k, v⟩ := kv
      unfold mainFn at hm
      dsimp only at hm
      by_cases hk : k = "metas"
      · rw [if_pos hk] at hm
        cases v with
        | metas ps =>
          dsimp only at hm
          cases hr : renderSecs env rest (header env ps) with
          | error er => rw [hr] at hm; exact Except.noConfusion hm
          | ok o =>
            rw [hr] at hm
            have hrest := renderSecs_ok_no_missing env rest _ o hr
            rw [docHasMissingInclude, List.any_cons] at h
            rw [show entryMissing env (k, TopVal.metas ps) = false from rfl] at h
            rw [hrest] at h
            simp at h
        | sections b => exact Except.noConfusion hm
      · rw [if_neg hk] at hm
        cases hr : renderSecs env ((k, v) :: rest) (header env []) with
        | error er => rw [hr] at hm; exact Except.noConfusion hm
        | ok o =>
          have hall := renderSecs_ok_no_missing env ((k, v) :: rest) _ o hr
          rw [docHasMissingInclude] at h
          rw [hall] at h
          simp at h

theorem c7_unreadable_file_fatal_witness : ∃ e, mainFn envW docW7 = Except.error e :=
  c7_unreadable_file_fatal.1 envW docW7 (by decide)

/-- C8: rendering is deterministic — the embedded assembler is a pure
function of the document and the (fixed) external collaborators, so two runs
on the same inputs give byte-identical output. -/
theorem c8_deterministic (env : Env) (doc : List (String × TopVal))
    (o₁ o₂ : Except Err ByteArray)
    (h₁ : mainFn env doc = o₁) (h₂ : mainFn env doc = o₂) : o₁ = o₂ :=
  h₁.symm.trans h₂

theorem c8_deterministic_witness :
    (Except.error Err.indexError : Except Err ByteArray) = Except.error Err.indexError :=
  c8_deterministic envW [] _ _ rfl rfl

/-- C9: on the empty document the assembler fails (the `doc[0][0]` metas
check indexes into an empty sequence) instead of emitting a
header-and-footer-only document. -/
theorem c9_empty_document_error (env : Env) :
    mainFn env [] = Except.error Err.indexError := rfl

/-- The header text as a function of the raw metadata values it interpolates
(spec-worded shape for C10): the five values flow in as given. -/
def headerTemplate (env : Env)
    (style title author institute date : String) (outl : Bool) : String :=
  headerPre
  ++ env.styleDefs style
  ++ headerThemes
  ++ ("\n\n\\title\x7b" ++ title ++ "\x7d")
  ++ ("\n\\author\x7b" ++ author ++ "\x7d")
  ++ ("\n\\institute\x7b" ++ institute ++ "\x7d")
  ++ ("\n\\date\x7b" ++ date ++ "\x7d")
  ++ headerBeginDoc
  ++ (if outl then outlineBlock else "")

set_option maxRecDepth 4000 in
/-- C10: metadata values reach the header verbatim — `title`, `author`,
`institute` and `date` are interpolated without passing through the Escaper —
whereas section, subsection and normal-frame titles are escaped; concretely,
a title `a_b` appears in the header untouched while a section `a_b` is
emitted with the underscore escaped. -/
theorem c10_metas_values_verbatim :
    (∀ (env : Env) (metas : List (String × MetaVal)),
      header env metas =
        headerTemplate env
          (mget metas "highlight_style" (MetaVal.s "default")).fmt
          (mget metas "title" (MetaVal.s "Example Presentation")).fmt
          (mget metas "author" (MetaVal.s "Arthur Koziel")).fmt
          (mget metas "institute" (MetaVal.s "")).fmt
          (mget metas "date" (MetaVal.s "\\today")).fmt
          (mget metas "outline" (MetaVal.b true)).truthy) ∧
    (∀ t, sectionCmd t = "\n\n\\section\x7b" ++ _escape_output t ++ "\x7d") ∧
    (∀ t, subsection t = "\n\\subsection\x7b" ++ _escape_output t ++ "\x7d") ∧
    (∀ t l, frameNormal t (FrameItems.items l) =
      Except.ok ("\n\\frame \x7b" ++ ("\n\t\\frametitle\x7b" ++ _escape_output t ++ "\x7d")
        ++ itemize l ++ "\n\x7d")) ∧
    _escape_output "a_b" ≠ "a_b" ∧
    List.IsInfix ("\\title\x7ba_b\x7d".data)
      ((header envId [("title", MetaVal.s "a_b")]).data) ∧
    List.IsInfix ("\n\n\\section\x7ba\\_b\x7d".data) ((sectionCmd "a_b").data) := by
  refine ⟨fun env metas => rfl, fun t => rfl, fun t => rfl, fun t l => rfl,
    by decide, by decide, by decide⟩
